import Mathlib

/-!
Verification development for the Pdf2Bionic repository (package
`bionic_reader`): a shallow embedding of `processor.py` (word emphasis),
`image_handler.py` (image normalization), `converter.py` (paragraph
assembly and content chunking), `renderer.py` (parallel render and
merge) and `cli.py` (exit behavior), together with theorems settling
the specification claims.

Modelling conventions:
- Python `str` text content is `List Char`; Python floats are `Rat`.
- HTML fragments are modelled structurally (an inductive tree).
  Serialising a fragment to a string and re-parsing it (the lxml round
  trip in `converter.py` lines 121-150) is treated as the identity on
  fragments ONLY for markup-safe text: `process_text_node` inserts
  non-word text unescaped, so text containing `<` or `&` is mangled by
  the real parse (e.g. a raw `</` is consumed as an invalid end tag /
  bogus comment and emits no characters).  The serialization
  (`nodeString`) and the plain text the parse recovers (`htmlTextAux`)
  are modelled explicitly, the identity convention is proved for
  markup-safe fragments, and the character loss is exhibited on unsafe
  ones.  (The tree-motion side of the reparse is lossless: lxml's
  child iterator pre-fetches the next sibling before yielding, so the
  `for child in dummy` loop moves every parsed child, in order, into
  the container span, with element tails attached.)
- External collaborators (WeasyPrint, PyMuPDF page content, PIL
  decoding, base64 payload bytes) are abstracted behind parameters or
  opaque-but-concrete data, exactly at the interfaces the spec draws.
-/

namespace Pdf2Bionic

/-! ### processor.py -/

/-- The `\w` class of `re` with `re.UNICODE` (word character):
letters, digits, and the underscore connector. -/
def isWordChar (c : Char) : Bool := c.isAlphanum || c == '_'

/-- Python `not text.strip()` (processor.py line 19): true iff every
character is whitespace — in particular true for the empty string. -/
def isBlank (t : List Char) : Bool := t.all (fun c => c.isWhitespace)

/-- Python `int(x)` on a float/rational: truncation toward zero. -/
def pyInt (x : Rat) : Int := if 0 ≤ x then ⌊x⌋ else -⌊-x⌋

/-- One node of the HTML fragment string built by `process_text_node`:
a raw text segment, a `<span class="bionic-prefix">…</span>`, or a
`<span class="bionic-rest">…</span>`. -/
inductive Node where
  | text (s : List Char)
  | spanPrefix (s : List Char)
  | spanRest (s : List Char)
deriving Repr, DecidableEq

/-- The split point `k = max(1, int(len(word) * bold_ratio))` of
`wrap_word` (processor.py line 13). -/
def splitPoint (L : Nat) (bold_ratio : Rat) : Nat :=
  max 1 (pyInt ((L : Rat) * bold_ratio)).toNat

/-- Model of `wrap_word` (processor.py lines 6-16): a single-character
word becomes one bionic-prefix span; otherwise the word is split at
`k = max(1, int(L * bold_ratio))` into a bionic-prefix span `word[:k]`
and a bionic-rest span `word[k:]`. -/
def wrap_word (word : List Char) (bold_ratio : Rat) : List Node :=
  if word.length = 1 then [Node.spanPrefix word]
  else
    let k := splitPoint word.length bold_ratio
    [Node.spanPrefix (word.take k), Node.spanRest (word.drop k)]

/-- Model of the `re.finditer(r"(\w+)", text)` loop of
`process_text_node` (processor.py lines 22-41) as a single
left-to-right scan.  `word` is the maximal run of word characters read
so far, `nonword` the maximal run of non-word characters read so far;
the loop invariant is that at most one of the two is nonempty.  A
completed maximal non-word run is appended verbatim as a `Node.text`
(the `text[last_index:start]` / `text[last_index:]` appends); a
completed maximal word run goes through `wrap_word`. -/
def scanAux (bold_ratio : Rat) (word nonword : List Char) :
    List Char → List Node
  | [] =>
      (if nonword.isEmpty then [] else [Node.text nonword])
        ++ (if word.isEmpty then [] else wrap_word word bold_ratio)
  | c :: rest =>
      if isWordChar c then
        (if nonword.isEmpty then [] else [Node.text nonword])
          ++ scanAux bold_ratio (word ++ [c]) [] rest
      else
        (if word.isEmpty then [] else wrap_word word bold_ratio)
          ++ scanAux bold_ratio [] (nonword ++ [c]) rest

/-- Model of `process_text_node` (processor.py lines 18-41): `None`
for empty or whitespace-only input, otherwise the emphasised HTML
fragment. -/
def process_text_node (text : List Char) (bold_ratio : Rat) :
    Option (List Node) :=
  if isBlank text then none
  else some (scanAux bold_ratio [] [] text)

/-- The character content of one fragment node (markup stripped). -/
def nodeText : Node → List Char
  | .text s => s
  | .spanPrefix s => s
  | .spanRest s => s

/-- Plain-text projection of a fragment: concatenation of all
character content, with all tag markup stripped. -/
def plainNodes (ns : List Node) : List Char := (ns.map nodeText).flatten

/-- Plain-text projection of an optional fragment (`None` projects to
the empty string). -/
def plainOut : Option (List Node) → List Char
  | none => []
  | some ns => plainNodes ns

/-- Serialization of one fragment node exactly as the f-strings of
processor.py lines 11 and 16 build it: raw text is inserted verbatim,
with no escaping of markup-significant characters. -/
def nodeString : Node → List Char
  | .text s => s
  | .spanPrefix s =>
      "<span class=\"bionic-prefix\">".toList ++ s ++ "</span>".toList
  | .spanRest s =>
      "<span class=\"bionic-rest\">".toList ++ s ++ "</span>".toList

/-- The HTML string `process_text_node` returns: the concatenation of
the node serializations (processor.py line 41). -/
def fragmentString (ns : List Node) : List Char :=
  (ns.map nodeString).flatten

/-- Text content with no `<` character (nothing that can open
markup). -/
def noLt (s : List Char) : Bool := s.all (fun c => !(c == '<'))

/-- Run text whose unescaped serialization survives the HTML reparse
verbatim: no `<` (which opens a tag, an end tag or a bogus comment)
and no `&` (which begins a character entity reference). -/
def markupSafe (t : List Char) : Bool :=
  t.all (fun c => !(c == '<') && !(c == '&'))

/-- A fragment all of whose node contents are `<`-free (the shape
`process_text_node` produces from markup-safe input). -/
def fragmentSafe (ns : List Node) : Bool :=
  ns.all (fun n => noLt (nodeText n))

/-- The plain text the HTML parse of a serialized fragment recovers
(`lxml.html.fromstring`, converter.py line 133), scanned one character
at a time with an inside-markup flag.  Tag handling follows what
lxml's parser does in effect on these fragments: `<` followed by `/`
begins an end tag when a tag name follows and otherwise a bogus
comment, `<` followed by `!` a markup declaration, and `<` followed by
a letter a start tag — each is consumed up to the next `>` and
contributes no text; a `<` followed by any other character is emitted
as a literal `<`; every other character is text.  Character entity
references (`&…;`) are not modelled — markup-safe fragments contain no
`&` — and attribute values emitted by processor.py never contain `>`,
so consuming a tag up to the first `>` is exact for these strings. -/
def htmlTextAux : Bool → List Char → List Char
  | _, [] => []
  | true, c :: rest =>
      if c = '>' then htmlTextAux false rest else htmlTextAux true rest
  | false, c :: rest =>
      if c = '<' then
        match rest with
        | [] => ['<']
        | d :: rest2 =>
            if d == '/' || d == '!' || d.isAlpha then htmlTextAux true rest2
            else '<' :: htmlTextAux false (d :: rest2)
      else c :: htmlTextAux false rest

/-- Plain text recovered from parsing a serialized fragment string,
starting outside any markup. -/
def htmlPlainText (s : List Char) : List Char := htmlTextAux false s

/-! ### renderer.py -/

/-- A transient per-chunk PDF produced by one `render_chunk` worker
(renderer.py lines 8-19): the `tempfile.mkstemp` path and the pages
WeasyPrint wrote into it.  Paths and pages are abstract (`Nat`). -/
structure TempPdf where
  path : Nat
  pages : List Nat
deriving Repr, DecidableEq

/-- File-system actions `render_pdf` performs after the pool returns:
`removeTemp p` is `os.remove(temp_pdf)` (line 55), `writeDest` is
`doc.save(output_path)` (line 59) — a direct write to the destination
path.  `renameToDest` (write to a temporary location, then rename over
the destination) appears nowhere in the source; it is included so that
the atomic-write claim is expressible. -/
inductive FsEvent where
  | removeTemp (path : Nat)
  | writeDest
  | renameToDest (src : Nat)
deriving Repr, DecidableEq

/-- Some `FsEvent` constructor tests. -/
def FsEvent.isRename : FsEvent → Bool
  | .renameToDest _ => true
  | _ => false

/-- Observable outcome of `render_pdf` (renderer.py lines 26-70):
whether it returned `True` or raised, the destination file's pages (or
`none` if the destination was never created), the temp-file paths still
on disk when control returns to the caller, and the file-system event
trace after the pool returned. -/
structure RenderOutcome where
  ok : Bool
  destFile : Option (List Nat)
  tempsLeft : List Nat
  events : List FsEvent
deriving Repr, DecidableEq

/-- Model of `render_pdf` after `pool.map` has returned (renderer.py
lines 41-63), applied to the collected worker results `temp_pdfs`
(`None` = that worker failed and returned `None`, line 24).
If any result is `None`, line 45 raises before the merge loop: the
destination is never created, and no `os.remove` has run, so every
successfully rendered temp PDF is left on disk (the `finally` block,
lines 68-70, only closes the pool).  Otherwise the merge loop (lines
50-57) inserts each part's pages in list order and removes each temp
file, and line 59 saves the merged document directly to
`output_path`. -/
def render_pdf_results (temp_pdfs : List (Option TempPdf)) : RenderOutcome :=
  if temp_pdfs.any Option.isNone then
    { ok := false
      destFile := none
      tempsLeft := (temp_pdfs.filterMap id).map TempPdf.path
      events := [] }
  else
    let parts := temp_pdfs.filterMap id
    { ok := true
      destFile := some ((parts.map TempPdf.pages).flatten)
      tempsLeft := []
      events := (parts.map (fun p => FsEvent.removeTemp p.path)) ++ [FsEvent.writeDest] }

/-- Model of `multiprocessing.Pool.map` (renderer.py line 41) exposing
the order in which workers finish: there is one result slot per input
(initially unfilled), workers complete in the order given by `order`,
and a worker for input index `i` stores its result in slot `i`.
`pool.map` returns the slots in input-index order. -/
def pool_map_par (f : α → β) (xs : List α) (order : List Nat) :
    List (Option β) :=
  order.foldl (fun acc i => acc.set i ((xs[i]?).map f))
    (List.replicate xs.length none)

/-- Model of `render_pdf` (renderer.py lines 26-70): dispatch every
chunk to the worker function `render_chunk` (WeasyPrint, external) via
the pool, workers finishing in the order `order`, then check, merge,
clean up and save as in `render_pdf_results`. -/
def render_pdf (render_chunk : α → Option TempPdf) (html_chunks : List α)
    (order : List Nat) : RenderOutcome :=
  render_pdf_results
    ((pool_map_par render_chunk html_chunks order).map Option.join)

/-! ### cli.py -/

/-- Model of the exit behavior of `main` (cli.py lines 33-50): any
exception propagating out of `render_pdf` is caught and the process
exits with status 1; otherwise the run completes with status 0. -/
def cli_exit_code (o : RenderOutcome) : Nat :=
  if o.ok then 0 else 1

/-! ### converter.py — chunk partition -/

/-- `CHUNK_SIZE = 100` (converter.py line 226). -/
def CHUNK_SIZE : Nat := 100

/-- Model of the chunking loop of `pdf_to_html` (converter.py lines
238-256): accumulate body elements; once the current chunk reaches
`CHUNK_SIZE` elements, emit it as `head ++ rendered elements ++ tail`
and start a new chunk; after the loop, emit the remaining elements (if
any) as a final smaller chunk.  `render` is `html.tostring`
(external). -/
def chunkLoop (render : α → String) (head tail : String) :
    List α → List α → List String
  | [], cur =>
      if cur.isEmpty then []
      else [head ++ String.join (cur.map render) ++ tail]
  | e :: rest, cur =>
      let cur2 := cur ++ [e]
      if CHUNK_SIZE ≤ cur2.length then
        (head ++ String.join (cur2.map render) ++ tail)
          :: chunkLoop render head tail rest []
      else
        chunkLoop render head tail rest cur2

/-- Model of the chunk-partition portion of `pdf_to_html`
(converter.py lines 225-262): chunk the body content, and if no chunk
was produced (empty body) emit exactly one empty `head ++ tail`
document (lines 258-260). -/
def pdf_to_html_chunks (render : α → String) (head tail : String)
    (body_content : List α) : List String :=
  let chunks := chunkLoop render head tail body_content []
  if chunks.isEmpty then [head ++ tail] else chunks

/-! ### image_handler.py -/

/-- `MAX_IMAGE_WIDTH = 1200` (image_handler.py line 7). -/
def MAX_IMAGE_WIDTH : Nat := 1200

/-- `IMAGE_JPEG_QUALITY = 75` (image_handler.py line 8). -/
def IMAGE_JPEG_QUALITY : Nat := 75

/-- What `PIL.Image.open` yields for decodable bytes: pixel dimensions
and whether the image carries an alpha/transparency channel
(`image.mode in ('RGBA', 'LA')` or a transparent palette,
image_handler.py line 21).  Raw bytes that fail to decode are modelled
as `none` at the decode interface. -/
structure DecodedImage where
  width : Nat
  height : Nat
  hasAlpha : Bool
deriving Repr, DecidableEq

/-- The normalized image payload: MIME kind and dimensions after any
downscaling.  The base64 payload bytes are produced by external
encoders and are abstracted away. -/
structure NormalizedImage where
  mime : String
  width : Nat
  height : Nat
deriving Repr, DecidableEq

/-- The resize step of `process_single_image` (image_handler.py lines
28-33): if `width > MAX_IMAGE_WIDTH`, let `ratio = 1200 / width` and
resize to `(int(width * ratio), int(height * ratio))`; otherwise keep
the dimensions. -/
def resize_if_large (width height : Nat) : Nat × Nat :=
  if MAX_IMAGE_WIDTH < width then
    let ratio : Rat := (MAX_IMAGE_WIDTH : Rat) / (width : Rat)
    ((pyInt ((width : Rat) * ratio)).toNat, (pyInt ((height : Rat) * ratio)).toNat)
  else (width, height)

/-- Model of `process_single_image` (image_handler.py lines 10-49).
`image_data` is the decode interface (`none` = `Image.open` raised).
On decode failure the except-branch (lines 47-49) logs a warning and
returns `(rel_id, None)`; the returned `Bool` records whether the
warning was logged.  Otherwise: PNG for images with transparency, JPEG
(quality 75, optimized — external encoding) for the rest, after the
resize step. -/
def process_single_image (image_data : Option DecodedImage) (rel_id : String) :
    (String × Option NormalizedImage) × Bool :=
  match image_data with
  | none => ((rel_id, none), true)
  | some img =>
      let mime := if img.hasAlpha then "image/png" else "image/jpeg"
      let wh := resize_if_large img.width img.height
      ((rel_id, some { mime := mime, width := wh.1, height := wh.2 }), false)

/-- Model of `extract_images_from_doc` (image_handler.py lines 51-84):
for every image relationship `(rId, blob)` submit
`process_single_image`, collect results in submission order, and keep
only the ids whose payload is non-null (`if data_url:` on line 80) —
a failed image's id is absent from the resulting mapping. -/
def extract_images_from_doc (rels : List (String × Option DecodedImage)) :
    List (String × NormalizedImage) :=
  rels.foldl
    (fun results task =>
      match process_single_image task.2 task.1 with
      | ((rid, some img), _) => results ++ [(rid, img)]
      | ((_, none), _) => results)
    []

/-! ### converter.py — paragraph assembly -/

/-- An HTML element tree node: raw text, or an element with a tag,
attribute list and children. -/
inductive Html where
  | textNode (s : List Char)
  | elem (tag : String) (attrs : List (String × String)) (children : List Html)
deriving Repr

/-- The parse of one `process_text_node` fragment node into the lxml
tree (converter.py line 133): raw text stays text, the two span kinds
become `span` elements holding their text. -/
def nodeToHtml : Node → Html
  | .text s => .textNode s
  | .spanPrefix s => .elem "span" [("class", "bionic-prefix")] [.textNode s]
  | .spanRest s => .elem "span" [("class", "bionic-rest")] [.textNode s]

/-- Paragraph alignment as read from `paragraph.alignment`
(converter.py lines 55-59); only CENTER and RIGHT produce a style. -/
inductive Alignment where
  | center
  | right
  | other
deriving Repr, DecidableEq

/-- The alignment style string (converter.py lines 55-59). -/
def alignStyle : Alignment → Option String
  | .center => some "text-align: center;"
  | .right => some "text-align: right;"
  | .other => none

/-- A text Run as the Document Structure Provider (python-docx) hands
it to `build_paragraph_element`: the embed relationship id of each
`w:drawing`'s `a:blip` (or `none` when the drawing has no blip), the
run text, the style attributes read on lines 102-105, and whether the
run contains a `w:br` (line 157). -/
structure Run where
  drawingRelIds : List (Option String)
  text : List Char
  bold : Bool
  italic : Bool
  underline : Bool
  fontSizePt : Option Rat
  hasLineBreak : Bool
deriving Repr, DecidableEq

/-- A paragraph: alignment plus its ordered runs. -/
structure Paragraph where
  alignment : Alignment
  runs : List Run
deriving Repr, DecidableEq

/-- The style fragments collected for a run (converter.py lines
101-105), in source order. -/
def runStyles (run : Run) : List String :=
  (if run.bold then ["font-weight: bold"] else [])
    ++ (if run.italic then ["font-style: italic"] else [])
    ++ (if run.underline then ["text-decoration: underline"] else [])
    ++ (match run.fontSizePt with
        | some s => ["font-size: " ++ toString s ++ "pt"]
        | none => [])

/-- The attribute list holding the run's joined style string, set only
when at least one style is present (`if styles:` on lines 118, 126). -/
def styleAttrs (run : Run) : List (String × String) :=
  if (runStyles run).isEmpty then []
  else [("style", String.intercalate "; " (runStyles run))]

/-- The data URI for a normalized image,
`data:<mime>;base64,<payload>`; the base64 payload bytes are external
and abstracted. -/
def dataUrl (img : NormalizedImage) : String :=
  "data:" ++ img.mime ++ ";base64"

/-- The image-handling part of the run loop (converter.py lines
67-95): for each drawing that has a blip with an embed id, and only
when that id is a key of `images_dict`, emit
`<div class="image-container"><img src=… alt="Document Image"/></div>`
(absolute positioning deliberately disabled, lines 88-93).  A drawing
whose id is missing from `images_dict` (e.g. because the image failed
to decode) contributes nothing at all. -/
def runImagesHtml (images_dict : List (String × NormalizedImage))
    (run : Run) : List Html :=
  run.drawingRelIds.filterMap
    (fun rid? =>
      match rid? with
      | none => none
      | some rid =>
          if rid = "" then none
          else
            match images_dict.lookup rid with
            | none => none
            | some img =>
                some (Html.elem "div" [("class", "image-container")]
                  [Html.elem "img"
                    [("src", dataUrl img), ("alt", "Document Image")] []]))

/-- The children placed inside the run's wrapping span (converter.py
lines 113-150): the parsed `process_text_node` fragment when it is
non-null, else the original run text unchanged (fallback branch, lines
116-119).  The `some` branch maps the fragment into the tree as if the
serialise-and-reparse of converter.py line 133 were the identity; that
convention is exact precisely for markup-safe run text
(`htmlPlainText_fragmentString`), and fails for text containing `<` or
`&` (`run_text_lost_counterexample`), so every statement built on this
branch carries a `markupSafe` hypothesis. -/
def emphasisChildren (bold_ratio : Rat) (text : List Char) : List Html :=
  match process_text_node text bold_ratio with
  | none => [Html.textNode text]
  | some frag => frag.map nodeToHtml

/-- The text-handling part of the run loop (converter.py lines
98-155): nothing when the run text is empty (`if text:`), otherwise a
single span carrying the run's style attributes and wrapping either
the emphasised fragment or, when `process_text_node` returned null,
the original text. -/
def runTextHtml (bold_ratio : Rat) (run : Run) : List Html :=
  if run.text.isEmpty then []
  else [Html.elem "span" (styleAttrs run) (emphasisChildren bold_ratio run.text)]

/-- The line-break part of the run loop (converter.py lines 157-158). -/
def runBreakHtml (run : Run) : List Html :=
  if run.hasLineBreak then [Html.elem "br" [] []] else []

/-- Everything one run contributes to the paragraph div, in source
order: image containers, then the styled text span, then the
line break. -/
def build_run_html (images_dict : List (String × NormalizedImage))
    (bold_ratio : Rat) (run : Run) : List Html :=
  runImagesHtml images_dict run
    ++ runTextHtml bold_ratio run
    ++ runBreakHtml run

/-- Model of `build_paragraph_element` (converter.py lines 53-160):
the outer `<div class="paragraph">` (with alignment style when
applicable) holding every run's contribution in run order. -/
def build_paragraph_element (paragraph : Paragraph)
    (images_dict : List (String × NormalizedImage)) (bold_ratio : Rat) :
    Html :=
  Html.elem "div"
    ([("class", "paragraph")]
      ++ (match alignStyle paragraph.alignment with
          | some s => [("style", s)]
          | none => []))
    ((paragraph.runs.map (build_run_html images_dict bold_ratio)).flatten)

mutual

/-- Plain-text projection of an HTML tree (all tag markup stripped). -/
def plainHtml : Html → List Char
  | .textNode s => s
  | .elem _ _ children => plainHtmlList children

/-- Plain-text projection of a list of HTML trees. -/
def plainHtmlList : List Html → List Char
  | [] => []
  | h :: t => plainHtml h ++ plainHtmlList t

end

/-- Test fixture: a run holding only the bold text "a b". -/
def boldABRun : Run :=
  { drawingRelIds := [], text := ['a', ' ', 'b'], bold := true, italic := false,
    underline := false, fontSizePt := none, hasLineBreak := false }

/-- Test fixture: a run holding only the bold whitespace text " ". -/
def boldBlankRun : Run :=
  { drawingRelIds := [], text := [' '], bold := true, italic := false,
    underline := false, fontSizePt := none, hasLineBreak := false }

/-- Test fixture: a run holding only one drawing that references the
image relationship "rId1", with no text. -/
def failedImageRun : Run :=
  { drawingRelIds := [some "rId1"], text := [], bold := false, italic := false,
    underline := false, fontSizePt := none, hasLineBreak := false }

/-! ## Helper lemmas: the word-emphasis round trip -/

/-- The plain-text projection distributes over fragment
concatenation. -/
theorem plainNodes_append (a b : List Node) :
    plainNodes (a ++ b) = plainNodes a ++ plainNodes b := by
  simp [plainNodes]

/-- `wrap_word` only inserts markup boundaries: its plain text is the
word itself. -/
theorem plainNodes_wrap_word (w : List Char) (r : Rat) :
    plainNodes (wrap_word w r) = w := by
  unfold wrap_word
  by_cases h : w.length = 1
  · simp [h, plainNodes, nodeText]
  · simp [h, plainNodes, nodeText]

/-- The scanning loop of `process_text_node` preserves all characters:
with at most one pending run, the plain text of the produced fragment
is the pending material followed by the remaining input. -/
theorem plainNodes_scanAux (r : Rat) :
    ∀ (input word nonword : List Char), word = [] ∨ nonword = [] →
      plainNodes (scanAux r word nonword input) = nonword ++ word ++ input := by
  intro input
  induction input with
  | nil =>
      intro word nonword h
      simp only [scanAux]
      rw [plainNodes_append]
      rcases h with h | h
      · subst h
        by_cases hn : nonword.isEmpty
        · have hnn : nonword = [] := by simpa using hn
          simp [hnn, plainNodes]
        · rw [if_neg hn]
          simp [plainNodes, nodeText]
      · subst h
        by_cases hw : word.isEmpty
        · have hww : word = [] := by simpa using hw
          simp [hww, plainNodes]
        · rw [if_neg hw, plainNodes_wrap_word]
          simp [plainNodes]
  | cons c rest ih =>
      intro word nonword h
      simp only [scanAux]
      by_cases hc : isWordChar c
      · rw [if_pos hc, plainNodes_append, ih (word ++ [c]) [] (Or.inr rfl)]
        by_cases hn : nonword.isEmpty
        · have hnn : nonword = [] := by simpa using hn
          simp [hnn, plainNodes]
        · have hw : word = [] := by
            rcases h with h | h
            · exact h
            · exact absurd (by simp [h]) hn
          rw [if_neg hn]
          simp [hw, plainNodes, nodeText]
      · rw [if_neg hc, plainNodes_append, ih [] (nonword ++ [c]) (Or.inl rfl)]
        by_cases hw : word.isEmpty
        · have hww : word = [] := by simpa using hw
          simp [hww, plainNodes]
        · have hn : nonword = [] := by
            rcases h with h | h
            · exact absurd (by simp [h]) hw
            · exact h
          rw [if_neg hw, plainNodes_wrap_word]
          simp [hn]

/-! ## C1 — round-trip invariant of the emphasis transform -/

/-- C1 (amended): for every text input `t` that contains at least one
non-whitespace character and every ratio `r`, the plain-text
projection (all tag markup stripped) of the output of
`process_text_node(t, r)` is exactly `t` — every character of
non-word spans and of words is preserved in count and order.
(For whitespace-only or empty `t` the function returns `None` instead
of markup, see the counterexample.) -/
theorem process_text_node_roundtrip (t : List Char) (r : Rat)
    (h : isBlank t = false) :
    (process_text_node t r).map plainNodes = some t := by
  unfold process_text_node
  rw [h]
  simpa using plainNodes_scanAux r t [] [] (Or.inl rfl)

/-- Witness for `process_text_node_roundtrip` at `t = "ab c"`,
`r = 1/2`. -/
theorem process_text_node_roundtrip_witness :
    isBlank ['a', 'b', ' ', 'c'] = false
      ∧ (process_text_node ['a', 'b', ' ', 'c'] (1/2)).map plainNodes
          = some ['a', 'b', ' ', 'c'] :=
  ⟨by decide, process_text_node_roundtrip ['a', 'b', ' ', 'c'] (1/2) (by decide)⟩

/-- C1 counterexample: for the whitespace-only input `" "` the
transform returns `None` — there is no output whose plain-text
projection yields the input, so the round-trip invariant fails as
stated for this text input. -/
theorem process_text_node_blank_counterexample :
    process_text_node [' '] (1/2) = none
      ∧ plainOut (process_text_node [' '] (1/2)) ≠ [' '] := by
  decide

/-! ## C2 — split-point formula and bounds -/

/-- Evaluation of the split point at `L = 7`, `r = 1/2` (the spec's
"reading" example): `max(1, floor(7 * 1/2)) = 3`. -/
theorem splitPoint_seven_half : splitPoint 7 (1/2 : Rat) = 3 := by
  unfold splitPoint pyInt
  rw [show ((7 : ℕ) : ℚ) * (1/2 : ℚ) = ((7 : ℤ) : ℚ) / ((2 : ℕ) : ℚ) by norm_num]
  rw [if_pos (by norm_num), Rat.floor_intCast_div_natCast]
  decide

/-- Evaluation of the split point at `L = 2`, `r = 1`:
`max(1, floor(2 * 1)) = 2`. -/
theorem splitPoint_two_one : splitPoint 2 (1 : Rat) = 2 := by
  unfold splitPoint pyInt
  rw [show ((2 : ℕ) : ℚ) * (1 : ℚ) = ((2 : ℤ) : ℚ) by norm_num]
  rw [if_pos (by norm_num), Int.floor_intCast]
  decide

/-- C2 (amended): for every word of length `L ≥ 2` and every ratio
`r ∈ (0,1]`, `wrap_word` emits exactly two adjacent spans — a strong
(`bionic-prefix`) span covering `[0,k)` and a normal (`bionic-rest`)
span covering `[k,L)` — where `k = max(1, floor(L*r))` and
`1 ≤ k ≤ L`; for `r < 1` moreover `k < L`, so the suffix is
non-empty.  (At `r = 1` the split point is `k = L` and the suffix
span is empty, see the counterexample.) -/
theorem wrap_word_split_point (w : List Char) (r : Rat)
    (hL : 2 ≤ w.length) (h0 : 0 < r) (h1 : r ≤ 1) :
    wrap_word w r
        = [Node.spanPrefix (w.take (splitPoint w.length r)),
           Node.spanRest (w.drop (splitPoint w.length r))]
      ∧ 1 ≤ splitPoint w.length r
      ∧ splitPoint w.length r ≤ w.length
      ∧ (r < 1 → splitPoint w.length r < w.length) := by
  have hne : w.length ≠ 1 := by omega
  have hw0 : (0 : Rat) < (w.length : Rat) := by
    exact_mod_cast (by omega : 0 < w.length)
  have hnn : (0 : Rat) ≤ (w.length : Rat) * r := mul_nonneg hw0.le h0.le
  have hpy : pyInt ((w.length : Rat) * r) = ⌊(w.length : Rat) * r⌋ := by
    unfold pyInt
    rw [if_pos hnn]
  have hfle : ⌊(w.length : Rat) * r⌋ ≤ (w.length : Int) := by
    have hx : (w.length : Rat) * r ≤ ((w.length : Int) : Rat) := by
      push_cast
      exact mul_le_of_le_one_right hw0.le h1
    calc ⌊(w.length : Rat) * r⌋ ≤ ⌊((w.length : Int) : Rat)⌋ := Int.floor_le_floor hx
      _ = (w.length : Int) := Int.floor_intCast _
  have hflt : r < 1 → ⌊(w.length : Rat) * r⌋ < (w.length : Int) := by
    intro hr
    rw [Int.floor_lt]
    push_cast
    exact mul_lt_of_lt_one_right hw0 hr
  refine ⟨?_, ?_, ?_, ?_⟩
  · unfold wrap_word
    rw [if_neg hne]
  · unfold splitPoint
    omega
  · unfold splitPoint
    rw [hpy]
    omega
  · intro hr
    have := hflt hr
    unfold splitPoint
    rw [hpy]
    omega

/-- Witness for `wrap_word_split_point` at the spec's own example,
the word "reading" with ratio `1/2` (split point 3). -/
theorem wrap_word_split_point_witness :
    2 ≤ (['r', 'e', 'a', 'd', 'i', 'n', 'g'] : List Char).length
      ∧ splitPoint 7 (1/2 : Rat) = 3
      ∧ (wrap_word ['r', 'e', 'a', 'd', 'i', 'n', 'g'] (1/2)
            = [Node.spanPrefix (['r', 'e', 'a', 'd', 'i', 'n', 'g'].take
                 (splitPoint (['r', 'e', 'a', 'd', 'i', 'n', 'g'] : List Char).length (1/2))),
               Node.spanRest (['r', 'e', 'a', 'd', 'i', 'n', 'g'].drop
                 (splitPoint (['r', 'e', 'a', 'd', 'i', 'n', 'g'] : List Char).length (1/2)))]
          ∧ 1 ≤ splitPoint (['r', 'e', 'a', 'd', 'i', 'n', 'g'] : List Char).length (1/2)
          ∧ splitPoint (['r', 'e', 'a', 'd', 'i', 'n', 'g'] : List Char).length (1/2)
              ≤ (['r', 'e', 'a', 'd', 'i', 'n', 'g'] : List Char).length
          ∧ ((1 : Rat)/2 < 1 →
              splitPoint (['r', 'e', 'a', 'd', 'i', 'n', 'g'] : List Char).length (1/2)
                < (['r', 'e', 'a', 'd', 'i', 'n', 'g'] : List Char).length)) :=
  ⟨by decide, splitPoint_seven_half,
   wrap_word_split_point ['r', 'e', 'a', 'd', 'i', 'n', 'g'] (1/2)
     (by decide) (by norm_num) (by norm_num)⟩

/-- C2 counterexample: at ratio `r = 1` (which is inside `(0,1]`) and
word "ab" of length 2, the split point is `k = max(1, floor(2*1)) = 2
= L`, violating `k < L`: the emitted suffix span is empty. -/
theorem wrap_word_ratio_one_counterexample :
    splitPoint 2 1 = 2
      ∧ wrap_word ['a', 'b'] 1 = [Node.spanPrefix ['a', 'b'], Node.spanRest []]
      ∧ ¬ splitPoint 2 1 < 2 := by
  refine ⟨splitPoint_two_one, ?_, by simp [splitPoint_two_one]⟩
  unfold wrap_word
  rw [if_neg (by decide)]
  have hl : (['a', 'b'] : List Char).length = 2 := rfl
  simp only [hl, splitPoint_two_one]
  decide

/-! ## Helper lemmas: the worker-pool result slots -/

/-- Filling result slots preserves the slot-list length. -/
theorem foldl_set_length (g : Nat → Option β) (order : List Nat)
    (init : List (Option β)) :
    (order.foldl (fun acc i => acc.set i (g i)) init).length = init.length := by
  induction order generalizing init with
  | nil => rfl
  | cons o rest ih => rw [List.foldl_cons, ih, List.length_set]

/-- A slot whose index never completes keeps its initial value. -/
theorem foldl_set_getElem_not_mem (g : Nat → Option β) (order : List Nat)
    (init : List (Option β)) (j : Nat) (hj : j ∉ order) :
    (order.foldl (fun acc i => acc.set i (g i)) init)[j]? = init[j]? := by
  induction order generalizing init with
  | nil => rfl
  | cons o rest ih =>
      rw [List.foldl_cons, ih _ (fun hmem => hj (List.mem_cons_of_mem _ hmem))]
      have hne : o ≠ j := by
        intro heq
        subst heq
        exact hj (List.mem_cons_self _ _)
      exact List.getElem?_set_ne hne

/-- A slot whose index completes at some point holds that worker's
result at the end — regardless of when in `order` it completed. -/
theorem foldl_set_getElem_mem (g : Nat → Option β) (order : List Nat)
    (init : List (Option β)) (j : Nat) (hj : j ∈ order) (hlen : j < init.length) :
    (order.foldl (fun acc i => acc.set i (g i)) init)[j]? = some (g j) := by
  induction order generalizing init with
  | nil => cases hj
  | cons o rest ih =>
      rw [List.foldl_cons]
      by_cases hr : j ∈ rest
      · exact ih _ hr (by rwa [List.length_set])
      · have hjo : j = o := by
          rcases List.mem_cons.mp hj with h | h
          · exact h
          · exact absurd h hr
        subst hjo
        rw [foldl_set_getElem_not_mem g rest _ j hr]
        exact List.getElem?_set_eq_of_lt _ hlen

/-- `pool.map` semantics: whenever every input index completes
(in any order), the returned result list is the worker function mapped
over the inputs, in input order — completion order is irrelevant. -/
theorem pool_map_par_of_perm (f : α → β) (xs : List α) (order : List Nat)
    (h : order.Perm (List.range xs.length)) :
    pool_map_par f xs order = xs.map (fun a => some (f a)) := by
  apply List.ext_getElem?
  intro j
  by_cases hj : j < xs.length
  · have hmem : j ∈ order := h.mem_iff.mpr (List.mem_range.mpr hj)
    have hx : xs[j]? = some xs[j] := List.getElem?_eq_getElem hj
    unfold pool_map_par
    rw [foldl_set_getElem_mem _ _ _ _ hmem (by rw [List.length_replicate]; exact hj)]
    rw [List.getElem?_map, hx]
    rfl
  · have h1 : (pool_map_par f xs order)[j]? = none := by
      apply List.getElem?_eq_none
      unfold pool_map_par
      rw [foldl_set_length, List.length_replicate]
      omega
    have h2 : (xs.map (fun a => some (f a)))[j]? = none := by
      apply List.getElem?_eq_none
      rw [List.length_map]
      omega
    rw [h1, h2]

/-! ## C3 — render-failure fail-fast -/

/-- C3 (amended): if any chunk's worker reports failure, the whole job
fails — `render_pdf` raises before merging (returns no success), the
CLI exits with status 1, and no destination file is created; however,
the transient temp PDFs of the chunks that rendered successfully are
NOT removed: exactly the successful workers' temp paths are left on
disk when control returns.  (The claim's "every transient per-chunk
temporary PDF is removed" fails, see the counterexample.) -/
theorem render_failure_fail_fast (temp_pdfs : List (Option TempPdf))
    (h : none ∈ temp_pdfs) :
    (render_pdf_results temp_pdfs).ok = false
      ∧ cli_exit_code (render_pdf_results temp_pdfs) = 1
      ∧ (render_pdf_results temp_pdfs).destFile = none
      ∧ (render_pdf_results temp_pdfs).tempsLeft
          = (temp_pdfs.filterMap id).map TempPdf.path := by
  have hany : temp_pdfs.any Option.isNone = true :=
    List.any_eq_true.mpr ⟨none, h, rfl⟩
  simp [render_pdf_results, cli_exit_code, hany]

/-- Witness for `render_failure_fail_fast`: chunk 2 of 3 fails. -/
theorem render_failure_fail_fast_witness :
    none ∈ [some (⟨1, [10]⟩ : TempPdf), none, some ⟨3, [30]⟩]
      ∧ ((render_pdf_results [some ⟨1, [10]⟩, none, some ⟨3, [30]⟩]).ok = false
          ∧ cli_exit_code (render_pdf_results [some ⟨1, [10]⟩, none, some ⟨3, [30]⟩]) = 1
          ∧ (render_pdf_results [some ⟨1, [10]⟩, none, some ⟨3, [30]⟩]).destFile = none
          ∧ (render_pdf_results [some ⟨1, [10]⟩, none, some ⟨3, [30]⟩]).tempsLeft
              = (([some ⟨1, [10]⟩, none, some ⟨3, [30]⟩]
                  : List (Option TempPdf)).filterMap id).map TempPdf.path) :=
  ⟨by decide, render_failure_fail_fast _ (by decide)⟩

/-- C3 counterexample: chunk 2 of 3 fails while chunks 1 and 3 render
successfully (temp paths 1 and 3).  The job fails and no destination
file exists, but the successfully rendered chunks' temp PDFs are left
on disk — `tempsLeft = [1, 3] ≠ []` — contradicting "every transient
per-chunk temporary PDF ... is removed before returning". -/
theorem render_failure_temps_left_counterexample :
    (render_pdf_results [some ⟨1, [10]⟩, none, some ⟨3, [30]⟩]).ok = false
      ∧ (render_pdf_results [some ⟨1, [10]⟩, none, some ⟨3, [30]⟩]).destFile = none
      ∧ (render_pdf_results [some ⟨1, [10]⟩, none, some ⟨3, [30]⟩]).tempsLeft = [1, 3]
      ∧ (render_pdf_results [some ⟨1, [10]⟩, none, some ⟨3, [30]⟩]).tempsLeft ≠ [] := by
  decide

/-! ## C4 — atomicity of the destination write -/

/-- C4 (amended): the merged output is written directly to the
destination path by a single `doc.save(output_path)` call — not via a
temporary location followed by a move/replace: the destination file
exists exactly when the direct `writeDest` event occurred, a
rename-into-place event never occurs in the trace, and on any failure
raised before the save no destination file is created. -/
theorem render_pdf_direct_write (temp_pdfs : List (Option TempPdf)) :
    ((render_pdf_results temp_pdfs).destFile.isSome = true
        ↔ FsEvent.writeDest ∈ (render_pdf_results temp_pdfs).events)
      ∧ (render_pdf_results temp_pdfs).events.filter FsEvent.isRename = []
      ∧ ((render_pdf_results temp_pdfs).ok = false
          → (render_pdf_results temp_pdfs).destFile = none) := by
  by_cases hany : temp_pdfs.any Option.isNone = true
  · simp [render_pdf_results, hany]
  · have hany' : temp_pdfs.any Option.isNone = false :=
      Bool.eq_false_iff.mpr hany
    have hres : render_pdf_results temp_pdfs
        = { ok := true
            destFile := some (((temp_pdfs.filterMap id).map TempPdf.pages).flatten)
            tempsLeft := []
            events := ((temp_pdfs.filterMap id).map
              (fun p => FsEvent.removeTemp p.path)) ++ [FsEvent.writeDest] } := by
      unfold render_pdf_results
      rw [hany']
      rfl
    rw [hres]
    refine ⟨by simp, ?_, by simp⟩
    rw [List.filter_append]
    have h1 : ((temp_pdfs.filterMap id).map
        (fun p => FsEvent.removeTemp p.path)).filter FsEvent.isRename = [] := by
      rw [List.filter_eq_nil_iff]
      intro e he
      rcases List.mem_map.mp he with ⟨p, _, rfl⟩
      simp [FsEvent.isRename]
    rw [h1]
    rfl

/-- Witness for `render_pdf_direct_write` at a failing input. -/
theorem render_pdf_direct_write_witness :
    ((render_pdf_results [none]).destFile.isSome = true
        ↔ FsEvent.writeDest ∈ (render_pdf_results [none]).events)
      ∧ (render_pdf_results [none]).events.filter FsEvent.isRename = []
      ∧ (render_pdf_results [none]).destFile = none :=
  ⟨(render_pdf_direct_write [none]).1, (render_pdf_direct_write [none]).2.1,
   (render_pdf_direct_write [none]).2.2 (by decide)⟩

/-- C4 counterexample: on a successful single-chunk render the
post-pool trace is `[removeTemp 0, writeDest]`: the destination file
comes into existence through a direct write to the destination path,
and no write-to-temporary-then-move/replace step occurs — the claimed
atomic write mechanism is absent. -/
theorem render_pdf_no_rename_counterexample :
    (render_pdf_results [some ⟨0, [1]⟩]).events
        = [FsEvent.removeTemp 0, FsEvent.writeDest]
      ∧ (render_pdf_results [some ⟨0, [1]⟩]).destFile.isSome = true
      ∧ (render_pdf_results [some ⟨0, [1]⟩]).events.filter FsEvent.isRename = [] := by
  decide

/-! ## C5 — merge order is chunk sequence order -/

/-- C5: for every list of chunks, every (successful) worker function
and every order in which the parallel per-chunk renders finish, the
final merged PDF contains the chunks' pages in strictly ascending
chunk sequence-index order — the completion order `order` does not
appear in the result at all. -/
theorem render_pdf_merge_order (g : α → TempPdf) (chunks : List α)
    (order : List Nat) (h : order.Perm (List.range chunks.length)) :
    render_pdf (fun c => some (g c)) chunks order
      = { ok := true
          destFile := some ((chunks.map (fun c => (g c).pages)).flatten)
          tempsLeft := []
          events := (chunks.map (fun c => FsEvent.removeTemp (g c).path))
            ++ [FsEvent.writeDest] } := by
  unfold render_pdf
  rw [pool_map_par_of_perm _ _ _ h]
  have hjoin : ((chunks.map (fun a => some (some (g a)))).map Option.join)
      = chunks.map (fun a => some (g a)) := by
    rw [List.map_map]
    rfl
  rw [hjoin]
  have hany : ((chunks.map (fun a => some (g a))).any Option.isNone) = false := by
    rw [List.any_eq_false]
    intro x hx
    rcases List.mem_map.mp hx with ⟨a, _, rfl⟩
    simp
  have hfm : (chunks.map (fun a => some (g a))).filterMap id = chunks.map g := by
    rw [List.filterMap_map]
    exact congrFun (List.filterMap_eq_map g) chunks
  have hres : render_pdf_results (chunks.map (fun a => some (g a)))
      = { ok := true
          destFile := some ((((chunks.map (fun a => some (g a))).filterMap id).map
            TempPdf.pages).flatten)
          tempsLeft := []
          events := (((chunks.map (fun a => some (g a))).filterMap id).map
            (fun p => FsEvent.removeTemp p.path)) ++ [FsEvent.writeDest] } := by
    unfold render_pdf_results
    rw [hany]
    rfl
  rw [hres]
  simp only [hfm, List.map_map]
  rfl

/-- Witness for `render_pdf_merge_order`: two chunks whose renders
finish in reversed order `[1, 0]`; the merged pages are still in chunk
order `[5, 7]`. -/
theorem render_pdf_merge_order_witness :
    List.Perm [1, 0] (List.range ([5, 7] : List Nat).length)
      ∧ render_pdf (fun c : Nat => some ⟨c, [c]⟩) [5, 7] [1, 0]
          = { ok := true
              destFile := some [5, 7]
              tempsLeft := []
              events := [FsEvent.removeTemp 5, FsEvent.removeTemp 7,
                FsEvent.writeDest] } :=
  ⟨by decide, by
    rw [render_pdf_merge_order (fun c : Nat => (⟨c, [c]⟩ : TempPdf)) [5, 7] [1, 0]
      (by decide)]
    rfl⟩

/-! ## C6 — chunk partition count -/

/-- Chunk count of the accumulate-and-flush loop: with fewer than 100
elements pending, the number of emitted chunks is the ceiling-style
quotient `(remaining + pending + 99) / 100`. -/
theorem chunkLoop_length (render : α → String) (head tail : String) :
    ∀ (xs cur : List α), cur.length < 100 →
      (chunkLoop render head tail xs cur).length
        = (xs.length + cur.length + 99) / 100 := by
  intro xs
  induction xs with
  | nil =>
      intro cur h
      by_cases hc : cur.isEmpty
      · have hcc : cur = [] := by simpa using hc
        simp [chunkLoop, hcc]
      · have h1 : 1 ≤ cur.length := by
          have hne : cur ≠ [] := by simpa [List.isEmpty_iff] using hc
          exact List.length_pos.mpr hne
        simp only [chunkLoop]
        rw [if_neg hc]
        simp only [List.length_singleton, List.length_nil]
        omega
  | cons e rest ih =>
      intro cur h
      simp only [chunkLoop]
      by_cases h100 : CHUNK_SIZE ≤ (cur ++ [e]).length
      · rw [if_pos h100]
        have hcl : cur.length = 99 := by
          unfold CHUNK_SIZE at h100
          simp only [List.length_append, List.length_singleton] at h100
          omega
        simp only [List.length_cons]
        rw [ih [] (by norm_num)]
        simp only [List.length_nil]
        omega
      · rw [if_neg h100]
        have hlt : (cur ++ [e]).length < 100 := by
          unfold CHUNK_SIZE at h100
          omega
        rw [ih (cur ++ [e]) hlt]
        simp only [List.length_append, List.length_singleton, List.length_cons,
          List.length_nil]
        omega

/-- `(N + 99) / 100` equals the rational ceiling `⌈N / 100⌉₊`. -/
theorem add_ninetynine_div_eq_ceil (N : Nat) :
    (N + 99) / 100 = ⌈(N : Rat) / 100⌉₊ := by
  rcases Nat.eq_zero_or_pos N with h0 | hpos
  · subst h0
    simp
  · have hd := Nat.div_add_mod (N + 99) 100
    have hm := Nat.mod_lt (N + 99) (show 0 < 100 by norm_num)
    obtain ⟨k, hk⟩ : ∃ k, (N + 99) / 100 = k + 1 := by
      refine ⟨(N + 99) / 100 - 1, ?_⟩
      omega
    rw [hk]
    have h1 : ⌈(N : Rat) / 100⌉₊ ≤ k + 1 := by
      apply Nat.ceil_le.mpr
      rw [div_le_iff₀ (by norm_num : (0 : Rat) < 100)]
      exact_mod_cast (by omega : N ≤ (k + 1) * 100)
    have h2 : k < ⌈(N : Rat) / 100⌉₊ := by
      apply Nat.lt_ceil.mpr
      rw [lt_div_iff₀ (by norm_num : (0 : Rat) < 100)]
      exact_mod_cast (by omega : k * 100 < N)
    omega

/-- C6: for a body-content sequence of `N` blocks with maximum chunk
size 100, the chunk-partition step of `pdf_to_html` produces exactly
`⌈N/100⌉` chunks (the final chunk may hold fewer than 100 blocks),
except that `N = 0` produces exactly one chunk (an empty head+tail
document) — never zero chunks. -/
theorem pdf_to_html_chunk_count (render : α → String) (head tail : String)
    (body_content : List α) :
    (pdf_to_html_chunks render head tail body_content).length
      = if body_content.length = 0 then 1
        else ⌈(body_content.length : Rat) / 100⌉₊ := by
  simp only [pdf_to_html_chunks]
  cases body_content with
  | nil => simp [chunkLoop]
  | cons b bs =>
      have hlen := chunkLoop_length render head tail (b :: bs) [] (by norm_num)
      have hpos : 1 ≤ (chunkLoop render head tail (b :: bs) []).length := by
        rw [hlen]
        simp only [List.length_cons, List.length_nil]
        omega
      have hne : ¬ (chunkLoop render head tail (b :: bs) []).isEmpty = true := by
        rw [List.isEmpty_iff]
        intro hEq
        rw [hEq] at hpos
        simp at hpos
      rw [if_neg hne, if_neg (by simp)]
      rw [hlen]
      simp only [List.length_nil, Nat.add_zero]
      exact add_ninetynine_div_eq_ceil _

/-! ## C10 — image downscaling bound -/

/-- C10: for every decodable image, if its width exceeds 1200 units
both dimensions are scaled by `1200/width`: the output width is
exactly 1200 and the output height is `floor(height * 1200 / width)`
(aspect ratio preserved within rounding: the true scaled height lies
in `[new_height, new_height + 1)`); if the width is at or below 1200
the dimensions are left unchanged — an image is never upscaled. -/
theorem image_downscaling (w h : Nat) :
    (MAX_IMAGE_WIDTH < w →
        resize_if_large w h = (1200, h * 1200 / w)
          ∧ h * 1200 / w ≤ h
          ∧ w * (h * 1200 / w) ≤ h * 1200
          ∧ h * 1200 < w * (h * 1200 / w + 1))
      ∧ (w ≤ MAX_IMAGE_WIDTH → resize_if_large w h = (w, h)) := by
  have hM : MAX_IMAGE_WIDTH = 1200 := rfl
  constructor
  · intro hw
    have hw' : 1200 < w := hw
    have hwq : ((w : Nat) : Rat) ≠ 0 := by
      exact_mod_cast (by omega : w ≠ 0)
    have hx : ((w : Nat) : Rat) * (((1200 : Nat) : Rat) / ((w : Nat) : Rat))
        = ((1200 : Int) : Rat) := by
      field_simp
    have hy : ((h : Nat) : Rat) * (((1200 : Nat) : Rat) / ((w : Nat) : Rat))
        = ((h * 1200 : Nat) : Rat) / ((w : Nat) : Rat) := by
      push_cast
      ring
    have p1 : (pyInt ((1200 : Int) : Rat)).toNat = 1200 := by
      unfold pyInt
      rw [if_pos (by norm_num), Int.floor_intCast]
      rfl
    have p2 : (pyInt (((h * 1200 : Nat) : Rat) / ((w : Nat) : Rat))).toNat
        = h * 1200 / w := by
      unfold pyInt
      rw [if_pos (by positivity), Int.floor_toNat, Nat.floor_div_nat,
        Nat.floor_natCast]
    have hre : resize_if_large w h = (1200, h * 1200 / w) := by
      unfold resize_if_large
      rw [if_pos hw]
      simp only [hM]
      rw [hx, hy, p1, p2]
    refine ⟨hre, ?_, ?_, ?_⟩
    · calc h * 1200 / w ≤ h * w / w :=
            Nat.div_le_div_right (Nat.mul_le_mul_left _ (by omega))
        _ = h := Nat.mul_div_cancel _ (by omega)
    · rw [Nat.mul_comm]
      exact Nat.div_mul_le_self _ _
    · have hd := Nat.div_add_mod (h * 1200) w
      have hm := Nat.mod_lt (h * 1200) (show 0 < w by omega)
      calc h * 1200 = w * (h * 1200 / w) + h * 1200 % w := hd.symm
        _ < w * (h * 1200 / w) + w := Nat.add_lt_add_left hm _
        _ = w * (h * 1200 / w + 1) := (Nat.mul_succ _ _).symm
  · intro hw
    have hw' : ¬ MAX_IMAGE_WIDTH < w := by omega
    unfold resize_if_large
    rw [if_neg hw']

/-- Witness for `image_downscaling`: a 2400x600 image is scaled to
1200x300; an 800x600 image is left unchanged. -/
theorem image_downscaling_witness :
    (MAX_IMAGE_WIDTH < 2400
        ∧ (resize_if_large 2400 600 = (1200, 600 * 1200 / 2400)
            ∧ 600 * 1200 / 2400 ≤ 600
            ∧ 2400 * (600 * 1200 / 2400) ≤ 600 * 1200
            ∧ 600 * 1200 < 2400 * (600 * 1200 / 2400 + 1)))
      ∧ (800 ≤ MAX_IMAGE_WIDTH ∧ resize_if_large 800 600 = (800, 600)) :=
  ⟨⟨by decide, (image_downscaling 2400 600).1 (by decide)⟩,
   ⟨by decide, (image_downscaling 800 600).2 (by decide)⟩⟩

/-! ## Helper lemmas: plain text of assembled run fragments -/

/-- The plain-text projection distributes over concatenation of HTML
node lists. -/
theorem plainHtmlList_append (a b : List Html) :
    plainHtmlList (a ++ b) = plainHtmlList a ++ plainHtmlList b := by
  induction a with
  | nil => rfl
  | cons x xs ih => simp [plainHtmlList, ih]

/-- Image containers contribute no plain text: the image part of a
run's output has empty plain-text projection. -/
theorem plain_runImagesHtml (images_dict : List (String × NormalizedImage))
    (run : Run) : plainHtmlList (runImagesHtml images_dict run) = [] := by
  unfold runImagesHtml
  generalize run.drawingRelIds = l
  induction l with
  | nil => rfl
  | cons x xs ih =>
      cases x with
      | none => simpa [List.filterMap_cons] using ih
      | some rid =>
          simp only [List.filterMap_cons]
          by_cases hrid : rid = ""
          · simpa [hrid] using ih
          · cases hlk : images_dict.lookup rid with
            | none => simpa [hrid, hlk] using ih
            | some img =>
                simp only [hrid, hlk]
                simp [plainHtmlList, plainHtml, ih]

/-- Parsing an emphasis fragment into HTML preserves its plain text. -/
theorem plainHtmlList_map_nodeToHtml (frag : List Node) :
    plainHtmlList (frag.map nodeToHtml) = plainNodes frag := by
  induction frag with
  | nil => rfl
  | cons n rest ih =>
      cases n <;>
        simp [nodeToHtml, plainHtmlList, plainHtml, plainNodes, nodeText, ih]

/-- The text part of a run's output projects to exactly the run's
original text, whether it went through the emphasis transform or
through the null fallback. -/
theorem plain_runTextHtml (r : Rat) (run : Run) :
    plainHtmlList (runTextHtml r run) = run.text := by
  unfold runTextHtml
  by_cases ht : run.text.isEmpty
  · have htt : run.text = [] := by simpa using ht
    simp [ht, htt, plainHtmlList]
  · rw [if_neg ht]
    have hred : plainHtmlList
        [Html.elem "span" (styleAttrs run) (emphasisChildren r run.text)]
        = plainHtmlList (emphasisChildren r run.text) := by
      simp [plainHtmlList, plainHtml]
    rw [hred]
    unfold emphasisChildren
    cases hpt : process_text_node run.text r with
    | none => simp [plainHtmlList, plainHtml]
    | some frag =>
        rw [plainHtmlList_map_nodeToHtml]
        unfold process_text_node at hpt
        by_cases hb : isBlank run.text
        · rw [if_pos hb] at hpt
          cases hpt
        · rw [if_neg hb] at hpt
          injection hpt with hfrag
          rw [← hfrag]
          simpa using plainNodes_scanAux r run.text [] [] (Or.inl rfl)

/-! ## Helper lemmas: the serialize-and-reparse round trip -/

/-- A character that cannot open markup is emitted verbatim by the
parse in the data state. -/
theorem htmlTextAux_false_cons (c : Char) (rest : List Char) (hc : ¬ c = '<') :
    htmlTextAux false (c :: rest) = c :: htmlTextAux false rest := by
  rw [htmlTextAux.eq_def]
  simp only []
  rw [if_neg hc]

/-- A `<`-free text segment passes through the reparse verbatim,
whatever follows it. -/
theorem htmlTextAux_append_noLt (s tail : List Char) (h : noLt s = true) :
    htmlTextAux false (s ++ tail) = s ++ htmlTextAux false tail := by
  induction s with
  | nil => rfl
  | cons c cs ih =>
      simp only [noLt, List.all_cons, Bool.and_eq_true] at h
      have hc : ¬ c = '<' := by simpa using h.1
      rw [List.cons_append, htmlTextAux_false_cons c _ hc, ih h.2,
        List.cons_append]

/-- The serialized bionic-prefix open tag is consumed as markup and
contributes no text. -/
theorem htmlTextAux_prefix_open_tag (X : List Char) :
    htmlTextAux false ("<span class=\"bionic-prefix\">".toList ++ X)
      = htmlTextAux false X := rfl

/-- The serialized bionic-rest open tag is consumed as markup and
contributes no text. -/
theorem htmlTextAux_rest_open_tag (X : List Char) :
    htmlTextAux false ("<span class=\"bionic-rest\">".toList ++ X)
      = htmlTextAux false X := rfl

/-- The serialized span end tag is consumed as markup and contributes
no text. -/
theorem htmlTextAux_close (X : List Char) :
    htmlTextAux false ("</span>".toList ++ X) = htmlTextAux false X := rfl

/-- Fragment safety distributes over concatenation. -/
theorem fragmentSafe_append (a b : List Node) :
    fragmentSafe (a ++ b) = (fragmentSafe a && fragmentSafe b) := by
  simp [fragmentSafe, List.all_append]

/-- Prefixes of `<`-free text are `<`-free. -/
theorem noLt_take (w : List Char) (k : Nat) (h : noLt w = true) :
    noLt (w.take k) = true := by
  simp only [noLt, List.all_eq_true] at h ⊢
  exact fun c hc => h c (List.take_subset _ _ hc)

/-- Suffixes of `<`-free text are `<`-free. -/
theorem noLt_drop (w : List Char) (k : Nat) (h : noLt w = true) :
    noLt (w.drop k) = true := by
  simp only [noLt, List.all_eq_true] at h ⊢
  exact fun c hc => h c (List.drop_subset _ _ hc)

/-- `wrap_word` of a `<`-free word produces a safe fragment. -/
theorem wrap_word_safe (w : List Char) (r : Rat) (h : noLt w = true) :
    fragmentSafe (wrap_word w r) = true := by
  unfold wrap_word
  by_cases hl : w.length = 1
  · rw [if_pos hl]
    simpa [fragmentSafe, nodeText] using h
  · rw [if_neg hl]
    simp [fragmentSafe, nodeText, noLt_take w _ h, noLt_drop w _ h]

/-- The scanning loop on `<`-free input (with `<`-free pending runs)
produces a safe fragment. -/
theorem scanAux_safe (r : Rat) :
    ∀ (input word nonword : List Char), noLt word = true →
      noLt nonword = true → noLt input = true →
      fragmentSafe (scanAux r word nonword input) = true := by
  intro input
  induction input with
  | nil =>
      intro word nonword hw hn _
      simp only [scanAux]
      rw [fragmentSafe_append, Bool.and_eq_true]
      constructor
      · by_cases hne : nonword.isEmpty
        · simp [hne, fragmentSafe]
        · rw [if_neg hne]
          simpa [fragmentSafe, nodeText] using hn
      · by_cases hwe : word.isEmpty
        · simp [hwe, fragmentSafe]
        · rw [if_neg hwe]
          exact wrap_word_safe word r hw
  | cons c rest ih =>
      intro word nonword hw hn hi
      simp only [noLt, List.all_cons, Bool.and_eq_true] at hi
      obtain ⟨hc, hrest⟩ := hi
      simp only [scanAux]
      by_cases hWc : isWordChar c
      · rw [if_pos hWc, fragmentSafe_append, Bool.and_eq_true]
        constructor
        · by_cases hne : nonword.isEmpty
          · simp [hne, fragmentSafe]
          · rw [if_neg hne]
            simpa [fragmentSafe, nodeText] using hn
        · refine ih (word ++ [c]) [] ?_ rfl hrest
          simp only [noLt, List.all_append, Bool.and_eq_true]
          exact ⟨hw, by simp [List.all_cons, hc]⟩
      · rw [if_neg hWc, fragmentSafe_append, Bool.and_eq_true]
        constructor
        · by_cases hwe : word.isEmpty
          · simp [hwe, fragmentSafe]
          · rw [if_neg hwe]
            exact wrap_word_safe word r hw
        · refine ih [] (nonword ++ [c]) rfl ?_ hrest
          simp only [noLt, List.all_append, Bool.and_eq_true]
          exact ⟨hn, by simp [List.all_cons, hc]⟩

/-- The serialize-and-reparse round trip of a safe fragment recovers
exactly the fragment's plain text: for `<`-free node contents, the
HTML parse of the unescaped fragment string (converter.py line 133)
loses no characters. -/
theorem htmlPlainText_fragmentString (ns : List Node) :
    fragmentSafe ns = true →
      htmlPlainText (fragmentString ns) = plainNodes ns := by
  unfold htmlPlainText
  induction ns with
  | nil => intro _; rfl
  | cons n rest ih =>
      intro h
      simp only [fragmentSafe, List.all_cons, Bool.and_eq_true] at h
      obtain ⟨hn, hrest⟩ := h
      have hfs : fragmentString (n :: rest)
          = nodeString n ++ fragmentString rest := by
        simp [fragmentString]
      have hplain : plainNodes (n :: rest) = nodeText n ++ plainNodes rest := by
        simp [plainNodes]
      rw [hfs, hplain]
      cases n with
      | text s =>
          rw [show nodeString (Node.text s) = s from rfl,
            htmlTextAux_append_noLt s _ hn, ih hrest]
          rfl
      | spanPrefix s =>
          simp only [nodeString, List.append_assoc]
          rw [htmlTextAux_prefix_open_tag, htmlTextAux_append_noLt s _ hn,
            htmlTextAux_close, ih hrest]
          rfl
      | spanRest s =>
          simp only [nodeString, List.append_assoc]
          rw [htmlTextAux_rest_open_tag, htmlTextAux_append_noLt s _ hn,
            htmlTextAux_close, ih hrest]
          rfl

/-! ## C8 — run-character preservation through the Assembler -/

/-- C8 (amended): for every Run whose text is markup-safe (contains
no `<` and no `&`), the nodes the Assembler emits for it preserve
every original character of the Run's text in original order: the
plain text of the emitted element equals the Run's text, and — at the
string level — the HTML reparse of the unescaped emphasis fragment
(converter.py line 133) recovers exactly the original characters, so
only markup boundaries are inserted.  When the Run has text it is
emitted as a single span carrying the Run's collected style
attributes (bold/italic/underline/size) wrapping the emphasized spans
— the style context is not lost.  (For run text containing markup
sequences such as a raw `</`, the unescaped reparse drops characters:
see the counterexample.) -/
theorem run_text_preserved (images_dict : List (String × NormalizedImage))
    (r : Rat) (run : Run) (hsafe : markupSafe run.text = true) :
    plainHtmlList (build_run_html images_dict r run) = run.text
      ∧ (∀ frag, process_text_node run.text r = some frag →
          htmlPlainText (fragmentString frag) = run.text)
      ∧ (run.text.isEmpty = false →
          runTextHtml r run
            = [Html.elem "span" (styleAttrs run) (emphasisChildren r run.text)]) := by
  refine ⟨?_, ?_, ?_⟩
  · unfold build_run_html
    rw [plainHtmlList_append, plainHtmlList_append, plain_runImagesHtml,
      plain_runTextHtml]
    unfold runBreakHtml
    by_cases hbr : run.hasLineBreak = true <;> simp [hbr, plainHtmlList, plainHtml]
  · intro frag hfrag
    have hnoLt : noLt run.text = true := by
      simp only [markupSafe, List.all_eq_true] at hsafe
      simp only [noLt, List.all_eq_true]
      intro c hcmem
      have h2 := hsafe c hcmem
      simp only [Bool.and_eq_true] at h2
      exact h2.1
    unfold process_text_node at hfrag
    by_cases hb : isBlank run.text
    · rw [if_pos hb] at hfrag
      cases hfrag
    · rw [if_neg hb] at hfrag
      injection hfrag with hfrag'
      rw [← hfrag']
      rw [htmlPlainText_fragmentString _
        (scanAux_safe r run.text [] [] rfl rfl hnoLt)]
      simpa using plainNodes_scanAux r run.text [] [] (Or.inl rfl)
  · intro hne
    unfold runTextHtml
    rw [if_neg (by simp [hne])]

/-- Witness for `run_text_preserved` at a bold run with the
markup-safe text "a b". -/
theorem run_text_preserved_witness :
    markupSafe ['a', ' ', 'b'] = true
      ∧ plainHtmlList (build_run_html [] (1/2) boldABRun) = ['a', ' ', 'b']
      ∧ (process_text_node ['a', ' ', 'b'] (1/2)
            = some [Node.spanPrefix ['a'], Node.text [' '], Node.spanPrefix ['b']]
          ∧ htmlPlainText (fragmentString
              [Node.spanPrefix ['a'], Node.text [' '], Node.spanPrefix ['b']])
            = ['a', ' ', 'b'])
      ∧ runTextHtml (1/2) boldABRun
          = [Html.elem "span" (styleAttrs boldABRun)
              (emphasisChildren (1/2) ['a', ' ', 'b'])] :=
  ⟨by decide,
   (run_text_preserved [] (1/2) boldABRun (by decide)).1,
   ⟨by decide,
    (run_text_preserved [] (1/2) boldABRun (by decide)).2.1
      [Node.spanPrefix ['a'], Node.text [' '], Node.spanPrefix ['b']] (by decide)⟩,
   (run_text_preserved [] (1/2) boldABRun (by decide)).2.2 (by decide)⟩

/-- C8 counterexample: the run text "a</b" (characters a, <, /, b) is
emphasised into the fragment span(a) · text "</" · span(b), whose
unescaped serialization is
`<span class="bionic-prefix">a</span></<span class="bionic-prefix">b</span>`;
the HTML reparse consumes the raw `</` — and with it the following
tag-open — as markup that emits no text, so the parsed plain text is
"ab": the characters `<` and `/` of the original run text are lost,
refuting universal character preservation through the Assembler. -/
theorem run_text_lost_counterexample :
    markupSafe ['a', '<', '/', 'b'] = false
      ∧ process_text_node ['a', '<', '/', 'b'] (1/2)
          = some [Node.spanPrefix ['a'], Node.text ['<', '/'],
              Node.spanPrefix ['b']]
      ∧ htmlPlainText (fragmentString
          [Node.spanPrefix ['a'], Node.text ['<', '/'], Node.spanPrefix ['b']])
        = ['a', 'b']
      ∧ ['a', 'b'] ≠ ['a', '<', '/', 'b'] := by
  decide

/-! ## C9 — emphasis null return and caller fallback -/

/-- C9: the emphasis transform returns null exactly when its input is
whitespace-only or empty; and in that case the caller still emits the
Run's original text unchanged inside a span with the Run's original
style attributes — the text is never omitted from the output. -/
theorem emphasis_null_iff_blank (t : List Char) (r : Rat)
    (images_dict : List (String × NormalizedImage)) (run : Run)
    (hne : run.text.isEmpty = false) :
    (process_text_node t r = none ↔ isBlank t = true)
      ∧ (process_text_node run.text r = none →
          build_run_html images_dict r run
            = runImagesHtml images_dict run
                ++ [Html.elem "span" (styleAttrs run) [Html.textNode run.text]]
                ++ runBreakHtml run) := by
  constructor
  · unfold process_text_node
    by_cases hb : isBlank t
    · simp [hb]
    · simp [hb]
  · intro hnull
    unfold build_run_html runTextHtml
    rw [if_neg (by simp [hne])]
    unfold emphasisChildren
    rw [hnull]

/-- Witness for `emphasis_null_iff_blank` at the whitespace-only run
text `" "` with a bold style. -/
theorem emphasis_null_iff_blank_witness :
    (process_text_node [' '] 1 = none ↔ isBlank [' '] = true)
      ∧ build_run_html [] 1 boldBlankRun
          = runImagesHtml [] boldBlankRun
              ++ [Html.elem "span" (styleAttrs boldBlankRun)
                  [Html.textNode [' ']]]
              ++ runBreakHtml boldBlankRun :=
  ⟨(emphasis_null_iff_blank [' '] 1 [] boldBlankRun (by decide)).1,
   (emphasis_null_iff_blank [' '] 1 [] boldBlankRun (by decide)).2 (by decide)⟩

/-! ## C7 — image-decode-failure degradation -/

/-- C7 (amended): when one image's bytes fail to decode, normalization
logs a warning and returns a null payload for that id, the id is
absent from the image mapping, and the job is otherwise unaffected —
but the output document omits that image's container element entirely
(neither the image nor its container div is emitted), rather than
containing an empty container. -/
theorem image_decode_failure (rid : String) (r : Rat) (run : Run)
    (hdr : run.drawingRelIds = [some rid]) (htxt : run.text = [])
    (hbr : run.hasLineBreak = false) :
    process_single_image none rid = ((rid, none), true)
      ∧ extract_images_from_doc [(rid, none)] = []
      ∧ build_run_html (extract_images_from_doc [(rid, none)]) r run = [] := by
  have hdict : extract_images_from_doc [(rid, none)] = [] := rfl
  refine ⟨rfl, hdict, ?_⟩
  unfold build_run_html runImagesHtml runTextHtml runBreakHtml
  rw [hdr, htxt, hbr, hdict]
  by_cases hrid : rid = ""
  · simp [hrid]
  · simp [hrid]

/-- Witness for `image_decode_failure` at relationship id "rId1". -/
theorem image_decode_failure_witness :
    process_single_image none "rId1" = (("rId1", none), true)
      ∧ extract_images_from_doc [("rId1", none)] = []
      ∧ build_run_html (extract_images_from_doc [("rId1", none)]) 1
          failedImageRun = [] :=
  image_decode_failure "rId1" 1 failedImageRun rfl rfl rfl

/-- C7 counterexample: a paragraph holding one run that references
only the failed image "rId1" renders as a paragraph div with NO
children at all — the image's container element is absent from the
output, not "present but empty" as the claim states. -/
theorem image_container_absent_counterexample :
    build_paragraph_element { alignment := Alignment.other, runs := [failedImageRun] }
        (extract_images_from_doc [("rId1", none)]) 1
      = Html.elem "div" [("class", "paragraph")] [] := by
  rfl

end Pdf2Bionic
